import Mathlib

/-!
# Verification of the ArgoFormatChecker file-intake API

Shallow embedding of `src/file_checker_python/file_checker_api/app.py`:
a FastAPI application with two routes, `GET /` (`app_status`) and
`POST /check-files` (`check_file_list`).  The handler generates a fresh
request identifier, creates `/home/app/input/<id>` with `os.makedirs`,
copies each uploaded file into that directory under its client-supplied
name (`open("wb")` + `shutil.copyfileobj`, closing the source stream in a
`finally` block), then calls the external validator
`FileChecker.check_files(request_file_dir.glob("*"), "bodc")` and returns
`{"results": <validator output>}`.

The filesystem is modelled explicitly: absolute paths are lists of
components, a filesystem state is a set of directories plus an
association list from file paths to byte contents.  `Path.joinpath`
follows pathlib (an absolute argument replaces the base, `.` components
are dropped at parse time, `..` is kept and resolved lexically by the OS
at `open`), and `glob("*")` enumerates every entry whose parent is the
given directory (Python 3.11 pathlib semantics: hidden names included).
Exceptions are modelled with `Except`/`Option`; the run also records the
per-upload closed flags, the destination paths that were opened, and the
trace of validator invocations, so that error-handling and isolation
claims can be stated.
-/

/-- An absolute filesystem path, as its list of components
(`/home/app/input` is `["home", "app", "input"]`). -/
abbrev FPath := List String

/-- Byte contents of a file, each byte a `Nat`. -/
abbrev Bytes := List Nat

/-- The parent directory of a path (`dropLast`); the root is its own parent. -/
def parentDir (p : FPath) : FPath := p.dropLast

/-- Split a list of characters at every `/` (the pieces, in order,
empty pieces included). -/
def splitChars : List Char → List (List Char)
  | [] => [[]]
  | c :: cs =>
    if c = '/' then [] :: splitChars cs
    else
      match splitChars cs with
      | [] => [[c]]
      | w :: ws => (c :: w) :: ws

/-- Split a client-supplied name on `/` into components, dropping empty
components, as pathlib parses relative path strings. -/
def splitName (s : String) : List String :=
  ((splitChars s.toList).map (fun w => String.mk w)).filter (fun c => c ≠ "")

/-- Whether a client-supplied name is an absolute path (leading `/`). -/
def isAbsName (s : String) : Bool :=
  match s.toList with
  | [] => false
  | c :: _ => c = '/'

/-- `base.joinpath(name)` of pathlib: an absolute `name` replaces the base,
otherwise the components of `name` are appended.  (pathlib also drops `.`
components at parse time; `resolveStep` below subsumes that.) -/
def joinpath (base : FPath) (name : String) : FPath :=
  if isAbsName name then splitName name else base ++ splitName name

/-- One step of lexical path resolution: `.` is dropped, `..` removes the
last component (the root's parent is the root), other components are kept. -/
def resolveStep (acc : FPath) (c : String) : FPath :=
  if c = "." then acc
  else if c = ".." then acc.dropLast
  else acc ++ [c]

/-- Lexical resolution of `.` and `..` components, as the OS performs it
when the path is opened (no symlinks in the model). -/
def resolvePath (p : FPath) : FPath := p.foldl resolveStep []

/-- A client-supplied name with no separators and no special components —
it parses as the single relative component `s`, which is neither `.` nor
`..`, so it names an entry directly inside the directory it is joined to. -/
def isPlainName (s : String) : Bool :=
  !(isAbsName s) && decide (splitName s = [s]) && decide (s ≠ ".") &&
    decide (s ≠ "..")

/-- Filesystem state: the set of existing directories (the root `[]` is
always implicit) and an association list from file paths to contents. -/
structure FS where
  dirs : List FPath
  files : List (FPath × Bytes)
deriving Repr, DecidableEq

/-- Look a file path up in an association list of files. -/
def lookupFile : List (FPath × Bytes) → FPath → Option Bytes
  | [], _ => none
  | (q, c) :: rest, p => if q = p then some c else lookupFile rest p

/-- Write `b` at `p`: replace the entry if the key is present, else append. -/
def setFile : List (FPath × Bytes) → FPath → Bytes → List (FPath × Bytes)
  | [], p, b => [(p, b)]
  | (q, c) :: rest, p, b =>
    if q = p then (p, b) :: rest else (q, c) :: setFile rest p b

/-- The paths of the files of a filesystem. -/
def FS.fileKeys (fs : FS) : List FPath := fs.files.map Prod.fst

/-- Overwrite (or create) the file at `p` with contents `b`. -/
def FS.write (fs : FS) (p : FPath) (b : Bytes) : FS :=
  { fs with files := setFile fs.files p b }

/-- The proper nonempty prefixes of a path together with the path itself:
the chain of directories `os.makedirs` has to create. -/
def ancestorsIncl (p : FPath) : List FPath :=
  (List.range p.length).map (fun i => p.take (i + 1))

/-- `os.makedirs(p)` (no `exist_ok`): creates `p` and every missing
ancestor; raises `FileExistsError` if `p` already exists as a directory,
and an OS error if any ancestor-or-self position is occupied by a file. -/
def FS.makedirs (fs : FS) (p : FPath) : Except String FS :=
  if p ∈ fs.dirs then .error "FileExistsError"
  else if (ancestorsIncl p).any (fun q => (lookupFile fs.files q).isSome) then
    .error "NotADirectoryError"
  else .ok { fs with
    dirs := fs.dirs ++ (ancestorsIncl p).filter (fun q => q ∉ fs.dirs) }

/-- `list(d.glob("*"))`: every filesystem entry (file or directory) whose
parent is `d`, non-recursively; Python 3.11 pathlib matches hidden names. -/
def FS.glob (fs : FS) (d : FPath) : List FPath :=
  fs.fileKeys.filter (fun p => parentDir p = d) ++
    fs.dirs.filter (fun p => parentDir p = d)

/-- Well-formed filesystem: directories are nonempty paths closed under
taking parents, and every file sits inside an existing directory (or the
root) and does not coincide with a directory. -/
def FS.wf (fs : FS) : Prop :=
  (∀ d ∈ fs.dirs, d ≠ [] ∧ (parentDir d = [] ∨ parentDir d ∈ fs.dirs)) ∧
  (∀ e ∈ fs.files, (parentDir e.1 = [] ∨ parentDir e.1 ∈ fs.dirs) ∧
    e.1 ∉ fs.dirs)

/-- An uploaded file as the handler sees it: the client-supplied name, the
bytes its stream yields, and — when the stream is faulty — the exception
it raises once those bytes have been read. -/
structure UploadFile where
  filename : String
  bytes : Bytes
  readError : Option String
deriving Repr, DecidableEq

deriving instance DecidableEq for Except

/-- The input root `/home/app/input` hard-coded in the handler. -/
def inputRoot : FPath := ["home", "app", "input"]

/-- `Path(f"/home/app/input/{request_id}")`. -/
def requestDir (requestId : String) : FPath := inputRoot ++ [requestId]

/-- The OS-resolved destination path
`request_file_dir.joinpath(upload_file.filename)` of an upload. -/
def destOf (rd : FPath) (f : UploadFile) : FPath :=
  resolvePath (joinpath rd f.filename)

/-- Whether `open(p, "wb")` succeeds on `fs`: the parent of `p` must be an
existing directory (or the root) and `p` must not itself be a directory.
`"wb"` creates the file if missing and truncates it if present. -/
def canOpenWb (fs : FS) (p : FPath) : Bool :=
  decide (p ≠ []) &&
    (decide (parentDir p = []) || decide (parentDir p ∈ fs.dirs)) &&
    decide (p ∉ fs.dirs)

/-- One iteration of the copy loop body, up to the `finally`: try to open
the destination in mode `"wb"` and copy the whole source stream into it.
Returns the filesystem afterwards, whether the open succeeded, and the
exception raised, if any.  When the open succeeds the destination is
truncated and receives every byte the stream yields, even when the stream
then raises (a partial copy stays on disk); when the open fails nothing
is written. -/
def copyUpload (fs : FS) (rd : FPath) (f : UploadFile) :
    FS × Bool × Option String :=
  if canOpenWb fs (destOf rd f) then
    (fs.write (destOf rd f) f.bytes, true, f.readError)
  else
    (fs, false, some "OpenError")

/-- What the copy loop leaves behind: the filesystem, one closed-flag per
upload of the request (in request order), the destinations successfully
opened (in order), and the first exception, if any. -/
structure LoopOut where
  fs : FS
  closed : List Bool
  written : List FPath
  err : Option String
deriving Repr, DecidableEq

/-- The `for upload_file in files` loop of `check_file_list`: each
iteration copies one upload inside `try:`/`finally: upload_file.file.close()`,
so the source stream of every attempted upload is closed whether or not
its copy succeeded; the first exception aborts the loop, leaving the
streams of the remaining uploads unclosed and their copies unattempted. -/
def runLoop (rd : FPath) (fs : FS) : List UploadFile → LoopOut
  | [] => ⟨fs, [], [], none⟩
  | f :: rest =>
    match copyUpload fs rd f with
    | (fs1, opened, none) =>
      let out := runLoop rd fs1 rest
      ⟨out.fs, true :: out.closed,
        (if opened then [destOf rd f] else []) ++ out.written, out.err⟩
    | (fs1, opened, some e) =>
      ⟨fs1, true :: rest.map (fun _ => false),
        if opened then [destOf rd f] else [], some e⟩

/-- The response body `{"results": ...}` of a successful request. -/
structure Response (R : Type) where
  results : R
deriving Repr, DecidableEq

/-- Everything observable about one invocation of the handler: the final
filesystem, which upload streams were closed, which destination paths
were opened for writing, the trace of validator invocations (arguments of
each `check_files` call), and the outcome — the response body, or the
exception that propagated. -/
structure RunOut (R : Type) where
  fs : FS
  closed : List Bool
  written : List FPath
  calls : List (List FPath × String)
  outcome : Except String (Response R)

/-- The tail of the handler after the copy loop: raise the loop's
exception if there was one, otherwise hand `glob("*")` of the request
directory and the fixed spec name `"bodc"` to the validator and wrap its
result (or raise its exception). -/
def afterLoop {R : Type}
    (checker : FS → List FPath → String → Except String R)
    (rd : FPath) (lo : LoopOut) : RunOut R :=
  match lo.err with
  | some e => ⟨lo.fs, lo.closed, lo.written, [], .error e⟩
  | none =>
    match checker lo.fs (lo.fs.glob rd) "bodc" with
    | .error e =>
      ⟨lo.fs, lo.closed, lo.written, [(lo.fs.glob rd, "bodc")], .error e⟩
    | .ok v =>
      ⟨lo.fs, lo.closed, lo.written, [(lo.fs.glob rd, "bodc")], .ok ⟨v⟩⟩

/-- `check_file_list` of `app.py`, parameterised by the external validator
`checker` (the `FileChecker.check_files` bound method: it receives the
filesystem it reads, the enumerated paths and the spec name, and returns a
result or raises) and by the request identifier `uuid4()` produced for
this request.  Steps: `os.makedirs` on `/home/app/input/<id>`; the copy
loop; `check_files(request_file_dir.glob("*"), "bodc")`; wrap the result
as `{"results": ...}`.  No exception is caught. -/
def check_file_list {R : Type}
    (checker : FS → List FPath → String → Except String R)
    (requestId : String) (files : List UploadFile) (fs : FS) : RunOut R :=
  match fs.makedirs (requestDir requestId) with
  | .error e => ⟨fs, files.map (fun _ => false), [], [], .error e⟩
  | .ok fs1 =>
    afterLoop checker (requestDir requestId)
      (runLoop (requestDir requestId) fs1 files)

/-- `app_status` of `app.py` (`GET /`): returns the fixed set `{"OK"}` and
touches nothing, modelled as state passing on the filesystem. -/
def app_status (fs : FS) : FS × List String := (fs, ["OK"])

/-- `n` consecutive invocations of the status probe: the final state and
the list of returned bodies. -/
def statusCalls : Nat → FS → FS × List (List String)
  | 0, fs => (fs, [])
  | n + 1, fs =>
    let (fs1, v) := app_status fs
    let (fs2, vs) := statusCalls n fs1
    (fs2, v :: vs)

/-- The number of uploads whose copy the loop attempts: all of them when
every copy succeeds, and the failing one plus its predecessors otherwise. -/
def attempted (rd : FPath) (fs : FS) : List UploadFile → Nat
  | [] => 0
  | f :: rest =>
    match copyUpload fs rd f with
    | (fs1, _, none) => 1 + attempted rd fs1 rest
    | (_, _, some _) => 1

/-! ## Association-list lemmas -/

lemma lookupFile_setFile (l : List (FPath × Bytes)) (p q : FPath) (b : Bytes) :
    lookupFile (setFile l p b) q = if q = p then some b else lookupFile l q := by
  induction l with
  | nil => simp [setFile, lookupFile, eq_comm]
  | cons e rest ih =>
    obtain ⟨k, c⟩ := e
    by_cases hk : k = p
    · subst hk
      by_cases hq : q = k <;> simp [setFile, lookupFile, hq, eq_comm]
    · by_cases hq : k = q
      · subst hq
        simp [setFile, lookupFile, hk, Ne.symm hk]
      · simp [setFile, lookupFile, hk, hq, ih]

lemma setFile_of_not_mem (l : List (FPath × Bytes)) (p : FPath) (b : Bytes)
    (h : p ∉ l.map Prod.fst) : setFile l p b = l ++ [(p, b)] := by
  induction l with
  | nil => simp [setFile]
  | cons e rest ih =>
    obtain ⟨k, c⟩ := e
    simp only [List.map_cons, List.mem_cons] at h
    push_neg at h
    simp [setFile, Ne.symm h.1, ih h.2]

lemma setFile_setFile (l : List (FPath × Bytes)) (p : FPath) (b1 b2 : Bytes) :
    setFile (setFile l p b1) p b2 = setFile l p b2 := by
  induction l with
  | nil => simp [setFile]
  | cons e rest ih =>
    obtain ⟨k, c⟩ := e
    by_cases hk : k = p <;> simp [setFile, hk, ih]

lemma mem_keys_setFile (l : List (FPath × Bytes)) (p q : FPath) (b : Bytes) :
    q ∈ (setFile l p b).map Prod.fst ↔ q = p ∨ q ∈ l.map Prod.fst := by
  induction l with
  | nil => simp [setFile]
  | cons e rest ih =>
    obtain ⟨k, c⟩ := e
    by_cases hk : k = p
    · subst hk
      simp [setFile]
    · simp only [setFile, if_neg hk, List.map_cons, List.mem_cons, ih]
      tauto

lemma lookupFile_eq_none (l : List (FPath × Bytes)) (q : FPath)
    (h : q ∉ l.map Prod.fst) : lookupFile l q = none := by
  induction l with
  | nil => rfl
  | cons e rest ih =>
    obtain ⟨k, c⟩ := e
    simp only [List.map_cons, List.mem_cons] at h
    push_neg at h
    simp [lookupFile, Ne.symm h.1, ih h.2]

lemma lookupFile_append_of_left_none (l1 l2 : List (FPath × Bytes)) (q : FPath)
    (h : lookupFile l1 q = none) :
    lookupFile (l1 ++ l2) q = lookupFile l2 q := by
  induction l1 with
  | nil => rfl
  | cons e rest ih =>
    obtain ⟨k, c⟩ := e
    by_cases hk : k = q
    · simp [lookupFile, hk] at h
    · simp only [lookupFile, if_neg hk] at h
      simpa [lookupFile, hk] using ih h

lemma map_const_false (l : List UploadFile) :
    l.map (fun _ => false) = List.replicate l.length false := by
  induction l with
  | nil => rfl
  | cons f rest ih => simp [List.replicate_succ, ih]


/-! ## Path and directory-creation lemmas -/

lemma parentDir_concat (p : FPath) (s : String) : parentDir (p ++ [s]) = p := by
  simp [parentDir]

lemma self_mem_ancestorsIncl (p : FPath) (h : p ≠ []) : p ∈ ancestorsIncl p := by
  have hlen : 0 < p.length := List.length_pos.mpr h
  refine List.mem_map.mpr ⟨p.length - 1, List.mem_range.mpr ?_, ?_⟩
  · omega
  · rw [Nat.sub_add_cancel hlen, List.take_length]

lemma length_of_mem_ancestorsIncl {p q : FPath} (h : q ∈ ancestorsIncl p) :
    q.length ≤ p.length ∧ q ≠ [] := by
  obtain ⟨i, hi, rfl⟩ := List.mem_map.mp h
  have hi' := List.mem_range.mp hi
  constructor
  · simp
  · have : (p.take (i + 1)).length = i + 1 := by
      rw [List.length_take]
      omega
    intro hnil
    rw [hnil] at this
    simp at this

lemma parent_ne_of_mem_ancestorsIncl {p q : FPath} (hp : p ≠ [])
    (h : q ∈ ancestorsIncl p) : parentDir q ≠ p := by
  obtain ⟨hle, hne⟩ := length_of_mem_ancestorsIncl h
  intro heq
  have h1 : (parentDir q).length = q.length - 1 := by
    simp [parentDir]
  have h2 : 0 < q.length := List.length_pos.mpr hne
  have h3 : 0 < p.length := List.length_pos.mpr hp
  rw [heq] at h1
  omega

lemma makedirs_ok {fs fs1 : FS} {p : FPath} (h : fs.makedirs p = .ok fs1) :
    p ∉ fs.dirs ∧ fs1.files = fs.files ∧
      fs1.dirs = fs.dirs ++ (ancestorsIncl p).filter (fun q => q ∉ fs.dirs) := by
  unfold FS.makedirs at h
  split_ifs at h with h1 h2
  cases h
  exact ⟨h1, rfl, rfl⟩

lemma makedirs_mem_dirs {fs fs1 : FS} {p : FPath} (h : fs.makedirs p = .ok fs1)
    (hp : p ≠ []) : p ∈ fs1.dirs := by
  obtain ⟨h1, _, h3⟩ := makedirs_ok h
  rw [h3]
  refine List.mem_append.mpr (Or.inr ?_)
  exact List.mem_filter.mpr ⟨self_mem_ancestorsIncl p hp, by simpa using h1⟩

lemma makedirs_dirs_mono {fs fs1 : FS} {p : FPath} (h : fs.makedirs p = .ok fs1) :
    ∀ d ∈ fs.dirs, d ∈ fs1.dirs := by
  intro d hd
  obtain ⟨_, _, h3⟩ := makedirs_ok h
  rw [h3]
  exact List.mem_append.mpr (Or.inl hd)

lemma makedirs_no_dir_under {fs fs1 : FS} {p : FPath} (hwf : fs.wf)
    (h : fs.makedirs p = .ok fs1) (hp : p ≠ []) :
    ∀ d ∈ fs1.dirs, parentDir d ≠ p := by
  intro d hd
  obtain ⟨h1, _, h3⟩ := makedirs_ok h
  rw [h3] at hd
  rcases List.mem_append.mp hd with hd | hd
  · intro heq
    rcases (hwf.1 d hd).2 with h0 | hmem
    · exact hp (heq ▸ h0.symm ▸ rfl)
    · exact h1 (heq ▸ hmem)
  · exact parent_ne_of_mem_ancestorsIncl hp (List.mem_filter.mp hd).1

lemma makedirs_no_file_under {fs fs1 : FS} {p : FPath} (hwf : fs.wf)
    (h : fs.makedirs p = .ok fs1) (hp : p ≠ []) :
    ∀ q ∈ fs1.fileKeys, parentDir q ≠ p := by
  intro q hq
  obtain ⟨h1, h2, _⟩ := makedirs_ok h
  rw [FS.fileKeys, h2] at hq
  obtain ⟨e, he, rfl⟩ := List.mem_map.mp hq
  intro heq
  rcases (hwf.2 e he).1 with h0 | hmem
  · exact hp (heq ▸ h0.symm ▸ rfl)
  · exact h1 (heq ▸ hmem)

/-! ## Plain-name lemmas -/

lemma isPlainName_spec {s : String} (h : isPlainName s = true) :
    isAbsName s = false ∧ splitName s = [s] ∧ s ≠ "." ∧ s ≠ ".." := by
  simp only [isPlainName, Bool.and_eq_true, Bool.not_eq_true', decide_eq_true_eq] at h
  exact ⟨h.1.1.1, h.1.1.2, h.1.2, h.2⟩

lemma foldl_resolveStep_plain :
    ∀ (p : FPath) (acc : FPath), (∀ c ∈ p, c ≠ "." ∧ c ≠ "..") →
      List.foldl resolveStep acc p = acc ++ p := by
  intro p
  induction p with
  | nil => intro acc _; simp
  | cons c cs ih =>
    intro acc h
    have hc := h c (List.mem_cons_self c cs)
    have hstep : resolveStep acc c = acc ++ [c] := by
      simp [resolveStep, hc.1, hc.2]
    rw [List.foldl_cons, hstep,
      ih (acc ++ [c]) (fun d hd => h d (List.mem_cons_of_mem c hd)),
      List.append_assoc]
    rfl

lemma destOf_plain {id s : String} (hid : isPlainName id = true)
    (hs : isPlainName s = true) (b : Bytes) (e : Option String) :
    destOf (requestDir id) ⟨s, b, e⟩ = requestDir id ++ [s] := by
  obtain ⟨habs, hsplit, hdot, hddot⟩ := isPlainName_spec hs
  obtain ⟨_, _, hiddot, hidddot⟩ := isPlainName_spec hid
  have hjoin : joinpath (requestDir id) s = requestDir id ++ [s] := by
    rw [joinpath, if_neg (by simp [habs]), hsplit]
  rw [destOf, hjoin, resolvePath]
  refine foldl_resolveStep_plain _ [] ?_
  intro c hc
  have hlist : requestDir id ++ [s] = ["home", "app", "input", id, s] := by
    simp [requestDir, inputRoot]
  rw [hlist] at hc
  simp only [List.mem_cons, List.not_mem_nil, or_false] at hc
  rcases hc with rfl | rfl | rfl | rfl | rfl
  · exact ⟨by decide, by decide⟩
  · exact ⟨by decide, by decide⟩
  · exact ⟨by decide, by decide⟩
  · exact ⟨hiddot, hidddot⟩
  · exact ⟨hdot, hddot⟩

lemma canOpenWb_concat {fs : FS} {rd : FPath} (s : String) (hrd : rd ∈ fs.dirs)
    (hnd : ∀ d ∈ fs.dirs, parentDir d ≠ rd) :
    canOpenWb fs (rd ++ [s]) = true := by
  have h1 : rd ++ [s] ≠ ([] : FPath) := by simp
  have h2 : parentDir (rd ++ [s]) = rd := parentDir_concat rd s
  have h3 : rd ++ [s] ∉ fs.dirs := fun hmem => hnd _ hmem h2
  simp [canOpenWb, h1, h2, h3, hrd]

/-! ## Copy-loop lemmas -/

lemma copyUpload_dirs (fs : FS) (rd : FPath) (f : UploadFile) :
    (copyUpload fs rd f).1.dirs = fs.dirs := by
  unfold copyUpload
  split <;> rfl

lemma copyUpload_keys_mono (fs : FS) (rd : FPath) (f : UploadFile) :
    ∀ q ∈ fs.fileKeys, q ∈ (copyUpload fs rd f).1.fileKeys := by
  intro q hq
  unfold copyUpload
  split
  · exact (mem_keys_setFile fs.files (destOf rd f) q f.bytes).mpr (Or.inr hq)
  · exact hq

lemma runLoop_dirs (rd : FPath) :
    ∀ (files : List UploadFile) (fs : FS),
      (runLoop rd fs files).fs.dirs = fs.dirs := by
  intro files
  induction files with
  | nil => intro fs; rfl
  | cons f rest ih =>
    intro fs
    rcases h : copyUpload fs rd f with ⟨fs1, op, err⟩
    have hd : fs1.dirs = fs.dirs := by
      have := copyUpload_dirs fs rd f
      rw [h] at this
      exact this
    cases err with
    | none => simp only [runLoop, h]; rw [ih fs1, hd]
    | some e => simp only [runLoop, h]; exact hd

lemma runLoop_keys_mono (rd : FPath) :
    ∀ (files : List UploadFile) (fs : FS) (q : FPath),
      q ∈ fs.fileKeys → q ∈ (runLoop rd fs files).fs.fileKeys := by
  intro files
  induction files with
  | nil => intro fs q hq; exact hq
  | cons f rest ih =>
    intro fs q hq
    rcases h : copyUpload fs rd f with ⟨fs1, op, err⟩
    have hm : q ∈ fs1.fileKeys := by
      have := copyUpload_keys_mono fs rd f q hq
      rw [h] at this
      exact this
    cases err with
    | none => simp only [runLoop, h]; exact ih fs1 q hm
    | some e => simp only [runLoop, h]; exact hm

lemma copyUpload_err_none {fs fs1 : FS} {rd : FPath} {f : UploadFile} {op : Bool}
    (h : copyUpload fs rd f = (fs1, op, none)) :
    canOpenWb fs (destOf rd f) = true ∧ f.readError = none ∧ op = true ∧
      fs1 = fs.write (destOf rd f) f.bytes := by
  unfold copyUpload at h
  split at h
  · rename_i hc
    simp only [Prod.mk.injEq] at h
    exact ⟨hc, h.2.2, h.2.1.symm, h.1.symm⟩
  · simp only [Prod.mk.injEq] at h
    exact absurd h.2.2 (by simp)

lemma runLoop_err_none_readErr (rd : FPath) :
    ∀ (files : List UploadFile) (fs : FS),
      (runLoop rd fs files).err = none → ∀ f ∈ files, f.readError = none := by
  intro files
  induction files with
  | nil => intro fs _ f hf; cases hf
  | cons g rest ih =>
    intro fs herr f hf
    rcases h : copyUpload fs rd g with ⟨fs1, op, err⟩
    cases err with
    | none =>
      simp only [runLoop, h] at herr
      rcases List.mem_cons.mp hf with rfl | hf'
      · exact (copyUpload_err_none h).2.1
      · exact ih fs1 herr f hf'
    | some e =>
      simp only [runLoop, h] at herr
      cases herr

lemma runLoop_none_spec (rd : FPath) :
    ∀ (files : List UploadFile) (fs : FS),
      (runLoop rd fs files).err = none →
      (runLoop rd fs files).written = files.map (fun f => destOf rd f) ∧
      ∀ q, q ∈ (runLoop rd fs files).fs.fileKeys ↔
        q ∈ fs.fileKeys ∨ q ∈ files.map (fun f => destOf rd f) := by
  intro files
  induction files with
  | nil => intro fs _; exact ⟨rfl, fun q => by simp [runLoop]⟩
  | cons g rest ih =>
    intro fs herr
    rcases h : copyUpload fs rd g with ⟨fs1, op, err⟩
    cases err with
    | none =>
      obtain ⟨_, _, hop, hfs1⟩ := copyUpload_err_none h
      subst hop
      simp only [runLoop, h] at herr ⊢
      obtain ⟨hw, hk⟩ := ih fs1 herr
      refine ⟨by simp [hw], fun q => ?_⟩
      rw [hk q, hfs1]
      have : q ∈ (fs.write (destOf rd g) g.bytes).fileKeys ↔
          q = destOf rd g ∨ q ∈ fs.fileKeys :=
        mem_keys_setFile fs.files (destOf rd g) q g.bytes
      rw [this]
      simp only [List.map_cons, List.mem_cons]
      tauto
    | some e =>
      simp only [runLoop, h] at herr
      cases herr

lemma runLoop_written_parent (rd : FPath) :
    ∀ (files : List UploadFile) (fs : FS) (p : FPath),
      (∀ f ∈ files, destOf rd f = rd ++ [f.filename]) →
      p ∈ (runLoop rd fs files).written → parentDir p = rd := by
  intro files
  induction files with
  | nil => intro fs p _ hp; cases hp
  | cons g rest ih =>
    intro fs p hdest hp
    rcases h : copyUpload fs rd g with ⟨fs1, op, err⟩
    cases err with
    | none =>
      simp only [runLoop, h, List.mem_append] at hp
      rcases hp with hp | hp
      · cases op with
        | false => simp at hp
        | true =>
          simp only [if_true, List.mem_singleton] at hp
          rw [hp, hdest g (List.mem_cons_self g rest)]
          exact parentDir_concat rd g.filename
      · exact ih fs1 p (fun f hf => hdest f (List.mem_cons_of_mem g hf)) hp
    | some e =>
      simp only [runLoop, h] at hp
      split at hp
      · rw [List.mem_singleton] at hp
        rw [hp, hdest g (List.mem_cons_self g rest)]
        exact parentDir_concat rd g.filename
      · cases hp

lemma mem_glob {fs : FS} {d p : FPath} :
    p ∈ fs.glob d ↔
      (p ∈ fs.fileKeys ∨ p ∈ fs.dirs) ∧ parentDir p = d := by
  simp only [FS.glob, List.mem_append, List.mem_filter, decide_eq_true_eq]
  tauto

lemma requestDir_inj {id1 id2 : String} (h : requestDir id1 = requestDir id2) :
    id1 = id2 := by
  simp only [requestDir, List.append_cancel_left_eq, List.cons.injEq,
    and_true] at h
  exact h

lemma runLoop_closed_shape (rd : FPath) :
    ∀ (files : List UploadFile) (fs : FS),
      (runLoop rd fs files).closed =
        List.replicate (attempted rd fs files) true ++
          List.replicate (files.length - attempted rd fs files) false := by
  intro files
  induction files with
  | nil => intro fs; rfl
  | cons f rest ih =>
    intro fs
    rcases h : copyUpload fs rd f with ⟨fs1, op, err⟩
    cases err with
    | none =>
      simp only [runLoop, h, attempted, ih fs1, List.length_cons]
      rw [show 1 + attempted rd fs1 rest = attempted rd fs1 rest + 1 by omega,
        Nat.add_sub_add_right, List.replicate_succ, List.cons_append]
    | some e =>
      simp only [runLoop, h, attempted, List.length_cons]
      rw [List.replicate_succ, map_const_false]
      simp

lemma runLoop_append_plain (rd : FPath) :
    ∀ (files : List UploadFile) (fs : FS),
      rd ∈ fs.dirs →
      (∀ d ∈ fs.dirs, parentDir d ≠ rd) →
      (∀ f ∈ files, destOf rd f = rd ++ [f.filename]) →
      (∀ f ∈ files, f.readError = none) →
      (∀ f ∈ files, (rd ++ [f.filename]) ∉ fs.fileKeys) →
      (files.map (fun f => f.filename)).Nodup →
      runLoop rd fs files =
        ⟨{ fs with files :=
            fs.files ++ files.map (fun f => (rd ++ [f.filename], f.bytes)) },
          files.map (fun _ => true),
          files.map (fun f => rd ++ [f.filename]),
          none⟩ := by
  intro files
  induction files with
  | nil => intro fs _ _ _ _ _ _; simp [runLoop]
  | cons f rest ih =>
    intro fs hrd hnd hdest herr hkeys hnodup
    have hdf : destOf rd f = rd ++ [f.filename] :=
      hdest f (List.mem_cons_self f rest)
    have hcan : canOpenWb fs (destOf rd f) = true := by
      rw [hdf]; exact canOpenWb_concat f.filename hrd hnd
    have hcopy : copyUpload fs rd f =
        ({ fs with files := fs.files ++ [(rd ++ [f.filename], f.bytes)] },
          true, none) := by
      rw [copyUpload, if_pos hcan, herr f (List.mem_cons_self f rest)]
      rw [FS.write, hdf,
        setFile_of_not_mem fs.files (rd ++ [f.filename]) f.bytes
          (hkeys f (List.mem_cons_self f rest))]
    have hih := ih { fs with files := fs.files ++ [(rd ++ [f.filename], f.bytes)] }
      hrd hnd
      (fun g hg => hdest g (List.mem_cons_of_mem f hg))
      (fun g hg => herr g (List.mem_cons_of_mem f hg))
      (by
        intro g hg
        have h1 : (rd ++ [g.filename]) ∉ fs.fileKeys :=
          hkeys g (List.mem_cons_of_mem f hg)
        have h2 : g.filename ≠ f.filename := by
          intro he
          have := (List.nodup_cons.mp hnodup).1
          exact this (List.mem_map.mpr ⟨g, hg, he⟩)
        simp only [FS.fileKeys, List.map_append, List.mem_append,
          List.map_cons, List.map_nil, List.mem_singleton]
        push_neg
        exact ⟨h1, by simp [h2]⟩)
      (List.nodup_cons.mp hnodup).2
    simp only [runLoop, hcopy, hih, List.map_cons]
    simp [hdf, List.append_assoc]

/-! ## Handler case analysis -/

lemma check_makedirs_error {R : Type}
    (checker : FS → List FPath → String → Except String R)
    {requestId : String} (files : List UploadFile) {fs : FS} {e : String}
    (h : fs.makedirs (requestDir requestId) = .error e) :
    check_file_list checker requestId files fs =
      ⟨fs, files.map (fun _ => false), [], [], .error e⟩ := by
  unfold check_file_list
  rw [h]

lemma check_makedirs_ok {R : Type}
    (checker : FS → List FPath → String → Except String R)
    {requestId : String} (files : List UploadFile) {fs fs1 : FS}
    (h : fs.makedirs (requestDir requestId) = .ok fs1) :
    check_file_list checker requestId files fs =
      afterLoop checker (requestDir requestId)
        (runLoop (requestDir requestId) fs1 files) := by
  unfold check_file_list
  rw [h]

lemma afterLoop_err {R : Type}
    (checker : FS → List FPath → String → Except String R)
    (rd : FPath) {lo : LoopOut} {e : String} (h : lo.err = some e) :
    afterLoop checker rd lo = ⟨lo.fs, lo.closed, lo.written, [], .error e⟩ := by
  unfold afterLoop
  rw [h]

lemma afterLoop_checker_error {R : Type}
    (checker : FS → List FPath → String → Except String R)
    (rd : FPath) {lo : LoopOut} {e : String} (h : lo.err = none)
    (hch : checker lo.fs (lo.fs.glob rd) "bodc" = .error e) :
    afterLoop checker rd lo =
      ⟨lo.fs, lo.closed, lo.written, [(lo.fs.glob rd, "bodc")], .error e⟩ := by
  unfold afterLoop
  rw [h, hch]

lemma afterLoop_checker_ok {R : Type}
    (checker : FS → List FPath → String → Except String R)
    (rd : FPath) {lo : LoopOut} {v : R} (h : lo.err = none)
    (hch : checker lo.fs (lo.fs.glob rd) "bodc" = .ok v) :
    afterLoop checker rd lo =
      ⟨lo.fs, lo.closed, lo.written, [(lo.fs.glob rd, "bodc")], .ok ⟨v⟩⟩ := by
  unfold afterLoop
  rw [h, hch]

/-- A successful run decomposes: the directory was created, the loop
raised nothing, the final filesystem is the loop's, the validator was
called once on the enumeration of the request directory with `"bodc"`,
and the response wraps its result verbatim. -/
lemma check_ok_cases {R : Type}
    {checker : FS → List FPath → String → Except String R}
    {requestId : String} {files : List UploadFile} {fs : FS}
    {r : Response R}
    (h : (check_file_list checker requestId files fs).outcome = .ok r) :
    ∃ fs1, fs.makedirs (requestDir requestId) = .ok fs1 ∧
      (runLoop (requestDir requestId) fs1 files).err = none ∧
      (check_file_list checker requestId files fs).fs =
        (runLoop (requestDir requestId) fs1 files).fs ∧
      (check_file_list checker requestId files fs).closed =
        (runLoop (requestDir requestId) fs1 files).closed ∧
      (check_file_list checker requestId files fs).written =
        (runLoop (requestDir requestId) fs1 files).written ∧
      (check_file_list checker requestId files fs).calls =
        [((runLoop (requestDir requestId) fs1 files).fs.glob
            (requestDir requestId), "bodc")] ∧
      checker (runLoop (requestDir requestId) fs1 files).fs
          ((runLoop (requestDir requestId) fs1 files).fs.glob
            (requestDir requestId)) "bodc" = .ok r.results := by
  cases hmk : fs.makedirs (requestDir requestId) with
  | error e =>
    rw [check_makedirs_error checker files hmk] at h
    cases h
  | ok fs1 =>
    rw [check_makedirs_ok checker files hmk] at h ⊢
    cases herr : (runLoop (requestDir requestId) fs1 files).err with
    | some e =>
      rw [afterLoop_err checker _ herr] at h
      cases h
    | none =>
      cases hch : checker (runLoop (requestDir requestId) fs1 files).fs
          ((runLoop (requestDir requestId) fs1 files).fs.glob
            (requestDir requestId)) "bodc" with
      | error e =>
        rw [afterLoop_checker_error checker _ herr hch] at h
        cases h
      | ok v =>
        rw [afterLoop_checker_ok checker _ herr hch] at h ⊢
        cases h
        exact ⟨fs1, rfl, herr, rfl, rfl, rfl, rfl, by rw [hch]⟩

lemma afterLoop_fs {R : Type}
    (checker : FS → List FPath → String → Except String R)
    (rd : FPath) (lo : LoopOut) : (afterLoop checker rd lo).fs = lo.fs := by
  cases hle : lo.err with
  | some e => rw [afterLoop_err checker rd hle]
  | none =>
    cases hch : checker lo.fs (lo.fs.glob rd) "bodc" with
    | error e => rw [afterLoop_checker_error checker rd hle hch]
    | ok v => rw [afterLoop_checker_ok checker rd hle hch]

lemma afterLoop_closed {R : Type}
    (checker : FS → List FPath → String → Except String R)
    (rd : FPath) (lo : LoopOut) :
    (afterLoop checker rd lo).closed = lo.closed := by
  cases hle : lo.err with
  | some e => rw [afterLoop_err checker rd hle]
  | none =>
    cases hch : checker lo.fs (lo.fs.glob rd) "bodc" with
    | error e => rw [afterLoop_checker_error checker rd hle hch]
    | ok v => rw [afterLoop_checker_ok checker rd hle hch]

lemma afterLoop_written {R : Type}
    (checker : FS → List FPath → String → Except String R)
    (rd : FPath) (lo : LoopOut) :
    (afterLoop checker rd lo).written = lo.written := by
  cases hle : lo.err with
  | some e => rw [afterLoop_err checker rd hle]
  | none =>
    cases hch : checker lo.fs (lo.fs.glob rd) "bodc" with
    | error e => rw [afterLoop_checker_error checker rd hle hch]
    | ok v => rw [afterLoop_checker_ok checker rd hle hch]

lemma filter_parent_nil {rd : FPath} {ks : List FPath}
    (h : ∀ q ∈ ks, parentDir q ≠ rd) :
    ks.filter (fun p => parentDir p = rd) = [] := by
  rw [List.filter_eq_nil_iff]
  intro q hq
  simpa using h q hq

lemma lookup_map_dests (rd : FPath) :
    ∀ (files : List UploadFile) (g : UploadFile), g ∈ files →
      (files.map (fun f => f.filename)).Nodup →
      lookupFile (files.map (fun f => (rd ++ [f.filename], f.bytes)))
        (rd ++ [g.filename]) = some g.bytes := by
  intro files
  induction files with
  | nil => intro g hg; cases hg
  | cons f rest ih =>
    intro g hg hnodup
    rcases List.mem_cons.mp hg with rfl | hg'
    · simp [lookupFile]
    · have hne : f.filename ≠ g.filename := by
        intro he
        exact (List.nodup_cons.mp hnodup).1
          (List.mem_map.mpr ⟨g, hg', he.symm⟩)
      have hkey : (rd ++ [f.filename]) ≠ rd ++ [g.filename] := by
        simp [hne]
      simp only [List.map_cons, lookupFile, if_neg hkey]
      exact ih g hg' (List.nodup_cons.mp hnodup).2

lemma getD_replicate_append {a n : Nat} (i : Nat) (h : i < a) :
    (List.replicate a true ++ List.replicate n false).getD i false = true := by
  rw [List.getD_eq_getElem?_getD, List.getElem?_append]
  simp [List.length_replicate, h, List.getElem?_replicate]

/-! ## Claim theorems -/

/-- C9: every invocation of the status probe `GET /` returns the same
fixed value — a single-element collection containing the string `"OK"` —
and performs no side effect; `n` repeated calls all return that identical
value and leave the state untouched. -/
theorem claim_C9_status_probe_idempotent (fs : FS) (n : Nat) :
    app_status fs = (fs, ["OK"]) ∧ (app_status fs).2.length = 1 ∧
    "OK" ∈ (app_status fs).2 ∧
    statusCalls n fs = (fs, List.replicate n ["OK"]) := by
  refine ⟨rfl, rfl, by simp [app_status], ?_⟩
  induction n with
  | zero => rfl
  | succ m ih =>
    simp only [statusCalls, app_status]
    rw [ih]
    simp [List.replicate_succ]

/-- C5: the destination of each upload is the unsanitized join of the
request directory with the client-supplied name: the traversal name
`"../escaped"` is written outside the request directory, the absolute
name `"/x"` is written at the filesystem root, and two uploads named
`"a"` target the identical destination path. -/
theorem claim_C5_unsanitized_destination :
    (check_file_list (fun _ ps _ => Except.ok ps.length) "r1"
        [⟨"../escaped", [7], none⟩] ⟨[], []⟩).written =
      [["home", "app", "input", "escaped"]] ∧
    parentDir ["home", "app", "input", "escaped"] ≠ requestDir "r1" ∧
    lookupFile (check_file_list (fun _ ps _ => Except.ok ps.length) "r1"
        [⟨"../escaped", [7], none⟩] ⟨[], []⟩).fs.files
      ["home", "app", "input", "escaped"] = some [7] ∧
    (check_file_list (fun _ ps _ => Except.ok ps.length) "r1"
        [⟨"/x", [8], none⟩] ⟨[], []⟩).written = [["x"]] ∧
    destOf (requestDir "r1") ⟨"a", [1], none⟩ =
      destOf (requestDir "r1") ⟨"a", [2], none⟩ ∧
    (check_file_list (fun _ ps _ => Except.ok ps.length) "r1"
        [⟨"a", [1], none⟩, ⟨"a", [2], none⟩] ⟨[], []⟩).written =
      [requestDir "r1" ++ ["a"], requestDir "r1" ++ ["a"]] := by
  decide

/-- C1, counterexample: one upload (`N = 1`, names trivially pairwise
distinct) whose client-supplied name is `"../x"` completes without an
exception, yet the freshly created request directory holds `0 ≠ N`
files — the file landed outside the directory. -/
theorem claim_C1_counterexample :
    (["../x"] : List String).Nodup ∧
    (check_file_list (fun _ ps _ => Except.ok ps.length) "req1"
        [⟨"../x", [1], none⟩] ⟨[], []⟩).outcome = .ok ⟨0⟩ ∧
    ([⟨"../x", [1], none⟩] : List UploadFile).length = 1 ∧
    ((check_file_list (fun _ ps _ => Except.ok ps.length) "req1"
        [⟨"../x", [1], none⟩] ⟨[], []⟩).fs.fileKeys.filter
      (fun p => parentDir p = requestDir "req1")).length = 0 := by
  decide

/-- C4, counterexample: a file already exists at the destination, yet the
open succeeds (flag `true`, no exception) and truncates the old contents;
a whole request with two uploads of the same name likewise completes
without an exception — the open is not exclusive. -/
theorem claim_C4_counterexample :
    lookupFile (FS.mk (ancestorsIncl (requestDir "r"))
        [(requestDir "r" ++ ["a"], [1])]).files
      (destOf (requestDir "r") ⟨"a", [2], none⟩) = some [1] ∧
    copyUpload (FS.mk (ancestorsIncl (requestDir "r"))
        [(requestDir "r" ++ ["a"], [1])]) (requestDir "r") ⟨"a", [2], none⟩ =
      (FS.mk (ancestorsIncl (requestDir "r"))
        [(requestDir "r" ++ ["a"], [2])], true, none) ∧
    (check_file_list (fun _ ps _ => Except.ok ps.length) "r"
        [⟨"a", [1], none⟩, ⟨"a", [2], none⟩] ⟨[], []⟩).outcome = .ok ⟨1⟩ := by
  decide

/-- C7, counterexample: with request 2's directory already created (as its
own `makedirs` step leaves it), request 1 (`id1 ≠ id2`) uploads a file
named `"../id2/evil"`; the path it writes lies directly inside request 2's
directory and shows up in the enumeration `glob("*")` of that directory. -/
theorem claim_C7_counterexample :
    ("id1" : String) ≠ "id2" ∧
    (["home", "app", "input", "id2", "evil"] : FPath) ∈
      (check_file_list (fun _ ps _ => Except.ok ps.length) "id1"
        [⟨"../id2/evil", [9], none⟩]
        (FS.mk (ancestorsIncl (requestDir "id2")) [])).written ∧
    (["home", "app", "input", "id2", "evil"] : FPath) ∈
      (check_file_list (fun _ ps _ => Except.ok ps.length) "id1"
        [⟨"../id2/evil", [9], none⟩]
        (FS.mk (ancestorsIncl (requestDir "id2")) [])).fs.glob
        (requestDir "id2") := by
  decide

/-- C2: on every successful invocation, the validator's check operation is
invoked exactly once — the call trace is the singleton whose arguments are
the non-recursive enumeration (`glob("*")`) of the entries directly under
the request directory in the post-copy filesystem, together with the
fixed spec name `"bodc"` — and the handler's return value is exactly the
one-key mapping `{"results": v}` with `v` the validator's return value. -/
theorem claim_C2_validator_called_once {R : Type}
    (checker : FS → List FPath → String → Except String R)
    (requestId : String) (files : List UploadFile) (fs : FS)
    (r : Response R)
    (hok : (check_file_list checker requestId files fs).outcome = .ok r) :
    (check_file_list checker requestId files fs).calls =
      [((check_file_list checker requestId files fs).fs.glob
          (requestDir requestId), "bodc")] ∧
    checker (check_file_list checker requestId files fs).fs
      ((check_file_list checker requestId files fs).fs.glob
        (requestDir requestId)) "bodc" = .ok r.results := by
  obtain ⟨fs1, hmk, herr, hfs, _, _, hcalls, hch⟩ := check_ok_cases hok
  rw [hfs]
  exact ⟨hcalls, hch⟩

/-- C2, witness: a concrete successful run (empty upload list, validator
returning the number of enumerated paths) instantiating the theorem. -/
theorem claim_C2_witness :
    (check_file_list (fun _ ps _ => Except.ok ps.length) "w2" []
        (⟨[], []⟩ : FS)).calls =
      [((check_file_list (fun _ ps _ => Except.ok ps.length) "w2" []
          (⟨[], []⟩ : FS)).fs.glob (requestDir "w2"), "bodc")] ∧
    (Except.ok ((check_file_list (fun _ ps _ => Except.ok ps.length) "w2" []
        (⟨[], []⟩ : FS)).fs.glob (requestDir "w2")).length :
      Except String Nat) = Except.ok 0 :=
  claim_C2_validator_called_once (fun _ ps _ => Except.ok ps.length) "w2" []
    ⟨[], []⟩ ⟨0⟩ (by decide)

/-- C3: the handler catches no exception.  A directory-creation failure,
a copy failure or a validator failure propagates as the same exception
and never yields a `"results"` mapping; a copy failure aborts the loop so
the remaining files are not copied; and nothing is ever removed — every
directory and file of the initial state, the request directory and all
partially written files remain on disk on every path, success or
failure. -/
theorem claim_C3_no_catch_no_rollback {R : Type}
    (checker : FS → List FPath → String → Except String R)
    (requestId : String) (files : List UploadFile) (fs0 : FS) :
    (∀ e, fs0.makedirs (requestDir requestId) = .error e →
      check_file_list checker requestId files fs0 =
        ⟨fs0, files.map (fun _ => false), [], [], .error e⟩) ∧
    (∀ e fs1, fs0.makedirs (requestDir requestId) = .ok fs1 →
      (runLoop (requestDir requestId) fs1 files).err = some e →
      (check_file_list checker requestId files fs0).outcome = .error e ∧
      (check_file_list checker requestId files fs0).calls = [] ∧
      (check_file_list checker requestId files fs0).fs =
        (runLoop (requestDir requestId) fs1 files).fs ∧
      requestDir requestId ∈
        (check_file_list checker requestId files fs0).fs.dirs) ∧
    (∀ e fs1, fs0.makedirs (requestDir requestId) = .ok fs1 →
      (runLoop (requestDir requestId) fs1 files).err = none →
      checker (runLoop (requestDir requestId) fs1 files).fs
        ((runLoop (requestDir requestId) fs1 files).fs.glob
          (requestDir requestId)) "bodc" = .error e →
      (check_file_list checker requestId files fs0).outcome = .error e) ∧
    (∀ (fs' : FS) (f : UploadFile) (rest : List UploadFile) fsx op e,
      copyUpload fs' (requestDir requestId) f = (fsx, op, some e) →
      runLoop (requestDir requestId) fs' (f :: rest) =
        ⟨fsx, true :: rest.map (fun _ => false),
          if op then [destOf (requestDir requestId) f] else [], some e⟩) ∧
    (∀ d ∈ fs0.dirs,
      d ∈ (check_file_list checker requestId files fs0).fs.dirs) ∧
    (∀ q ∈ fs0.fileKeys,
      q ∈ (check_file_list checker requestId files fs0).fs.fileKeys) ∧
    (∀ r, (check_file_list checker requestId files fs0).outcome = .ok r →
      ∃ fs1, fs0.makedirs (requestDir requestId) = .ok fs1 ∧
        (runLoop (requestDir requestId) fs1 files).err = none) := by
  have hrdne : requestDir requestId ≠ [] := by simp [requestDir, inputRoot]
  refine ⟨?_, ?_, ?_, ?_, ?_, ?_, ?_⟩
  · intro e hmk
    exact check_makedirs_error checker files hmk
  · intro e fs1 hmk herr
    rw [check_makedirs_ok checker files hmk,
      afterLoop_err checker _ herr]
    refine ⟨rfl, rfl, rfl, ?_⟩
    rw [runLoop_dirs]
    exact makedirs_mem_dirs hmk hrdne
  · intro e fs1 hmk herr hch
    rw [check_makedirs_ok checker files hmk,
      afterLoop_checker_error checker _ herr hch]
  · intro fs' f rest fsx op e hcopy
    simp only [runLoop, hcopy]
  · intro d hd
    cases hmk : fs0.makedirs (requestDir requestId) with
    | error e => rw [check_makedirs_error checker files hmk]; exact hd
    | ok fs1 =>
      rw [check_makedirs_ok checker files hmk, afterLoop_fs, runLoop_dirs]
      exact makedirs_dirs_mono hmk d hd
  · intro q hq
    cases hmk : fs0.makedirs (requestDir requestId) with
    | error e => rw [check_makedirs_error checker files hmk]; exact hq
    | ok fs1 =>
      rw [check_makedirs_ok checker files hmk, afterLoop_fs]
      refine runLoop_keys_mono _ files fs1 q ?_
      rw [FS.fileKeys, (makedirs_ok hmk).2.1]
      exact hq
  · intro r hok
    obtain ⟨fs1, hmk, herr, _⟩ := check_ok_cases hok
    exact ⟨fs1, hmk, herr⟩

/-- C1, amended: for every request that completes without an exception,
given `N` uploaded files whose client-supplied names are pairwise
distinct PLAIN names (no `/`-separators and neither `.` nor `..` — the
unamended claim fails for names such as `"../x"`), and a plain request
identifier, the handler leaves exactly `N` files in the freshly created
request directory and the byte content of each equals the full byte
stream of the corresponding upload. -/
theorem claim_C1_amended_completeness {R : Type}
    (checker : FS → List FPath → String → Except String R)
    (requestId : String) (files : List UploadFile) (fs0 : FS)
    (r : Response R)
    (hwf : fs0.wf) (hid : isPlainName requestId = true)
    (hplain : ∀ f ∈ files, isPlainName f.filename = true)
    (hnodup : (files.map (fun f => f.filename)).Nodup)
    (hok : (check_file_list checker requestId files fs0).outcome = .ok r) :
    ((check_file_list checker requestId files fs0).fs.fileKeys.filter
        (fun p => parentDir p = requestDir requestId)).length =
      files.length ∧
    ∀ f ∈ files,
      lookupFile (check_file_list checker requestId files fs0).fs.files
        (requestDir requestId ++ [f.filename]) = some f.bytes := by
  obtain ⟨fs1, hmk, herr, hfs, _, _, _, _⟩ := check_ok_cases hok
  have hrdne : requestDir requestId ≠ [] := by simp [requestDir, inputRoot]
  have hrd1 : requestDir requestId ∈ fs1.dirs := makedirs_mem_dirs hmk hrdne
  have hnd : ∀ d ∈ fs1.dirs, parentDir d ≠ requestDir requestId :=
    makedirs_no_dir_under hwf hmk hrdne
  have hnf : ∀ q ∈ fs1.fileKeys, parentDir q ≠ requestDir requestId :=
    makedirs_no_file_under hwf hmk hrdne
  have hdest : ∀ f ∈ files,
      destOf (requestDir requestId) f = requestDir requestId ++ [f.filename] :=
    fun f hf => destOf_plain hid (hplain f hf) f.bytes f.readError
  have hre : ∀ f ∈ files, f.readError = none :=
    runLoop_err_none_readErr _ files fs1 herr
  have hkeys : ∀ f ∈ files,
      (requestDir requestId ++ [f.filename]) ∉ fs1.fileKeys :=
    fun f _ hmem => hnf _ hmem (parentDir_concat _ _)
  have hloop := runLoop_append_plain (requestDir requestId) files fs1
    hrd1 hnd hdest hre hkeys hnodup
  have hfiles : (check_file_list checker requestId files fs0).fs.files =
      fs1.files ++ files.map (fun f =>
        (requestDir requestId ++ [f.filename], f.bytes)) := by
    rw [hfs, hloop]
  have hkf : (check_file_list checker requestId files fs0).fs.fileKeys =
      fs1.fileKeys ++
        files.map (fun f => requestDir requestId ++ [f.filename]) := by
    rw [FS.fileKeys, hfiles, List.map_append, List.map_map]
    rfl
  constructor
  · rw [hkf, List.filter_append, filter_parent_nil hnf, List.nil_append]
    have hself : (files.map (fun f =>
          requestDir requestId ++ [f.filename])).filter
          (fun p => parentDir p = requestDir requestId) =
        files.map (fun f => requestDir requestId ++ [f.filename]) := by
      rw [List.filter_eq_self]
      intro p hp
      obtain ⟨f, _, rfl⟩ := List.mem_map.mp hp
      simp [parentDir_concat]
    rw [hself, List.length_map]
  · intro f hf
    have hnone : lookupFile fs1.files (requestDir requestId ++ [f.filename]) =
        none := by
      refine lookupFile_eq_none fs1.files _ (fun hmem => ?_)
      exact hnf _ hmem (parentDir_concat _ _)
    rw [hfiles, lookupFile_append_of_left_none fs1.files _ _ hnone]
    exact lookup_map_dests (requestDir requestId) files f hf hnodup

/-- C1, witness: two uploads with distinct plain names `"a"` and `"b"`
against the empty filesystem instantiate the amended theorem. -/
theorem claim_C1_witness :
    ((check_file_list (fun _ ps _ => Except.ok ps.length) "req1"
        [⟨"a", [1], none⟩, ⟨"b", [2, 3], none⟩]
        (⟨[], []⟩ : FS)).fs.fileKeys.filter
      (fun p => parentDir p = requestDir "req1")).length = 2 ∧
    ∀ f ∈ ([⟨"a", [1], none⟩, ⟨"b", [2, 3], none⟩] : List UploadFile),
      lookupFile (check_file_list (fun _ ps _ => Except.ok ps.length) "req1"
          [⟨"a", [1], none⟩, ⟨"b", [2, 3], none⟩] (⟨[], []⟩ : FS)).fs.files
        (requestDir "req1" ++ [f.filename]) = some f.bytes :=
  claim_C1_amended_completeness (fun _ ps _ => Except.ok ps.length) "req1"
    [⟨"a", [1], none⟩, ⟨"b", [2, 3], none⟩] ⟨[], []⟩ ⟨2⟩
    (by constructor <;> simp [FS.wf]) (by decide) (by decide) (by decide)
    (by decide)

/-- C4, amended: the handler opens each destination with truncating
binary write (`"wb"`): whenever the OS-level open precondition holds (a
nonempty path whose parent directory exists and which is not itself a
directory), the open succeeds even though a file already exists at the
destination, and the old contents are replaced by the upload's bytes —
the open is not exclusive and never fails on an existing entry. -/
theorem claim_C4_amended_truncating_open (fs : FS) (rd : FPath)
    (f : UploadFile) (old : Bytes)
    (h1 : destOf rd f ≠ [])
    (h2 : parentDir (destOf rd f) = [] ∨ parentDir (destOf rd f) ∈ fs.dirs)
    (h3 : destOf rd f ∉ fs.dirs)
    (_hold : lookupFile fs.files (destOf rd f) = some old) :
    copyUpload fs rd f = (fs.write (destOf rd f) f.bytes, true, f.readError) ∧
    lookupFile (fs.write (destOf rd f) f.bytes).files (destOf rd f) =
      some f.bytes := by
  have hcan : canOpenWb fs (destOf rd f) = true := by
    rcases h2 with h2 | h2 <;> simp [canOpenWb, h1, h2, h3]
  refine ⟨by rw [copyUpload, if_pos hcan], ?_⟩
  rw [FS.write, lookupFile_setFile]
  simp

/-- C4, witness: a concrete filesystem holding `[1]` at the destination;
the copy succeeds and leaves `[2]` there. -/
theorem claim_C4_witness :
    copyUpload (FS.mk (ancestorsIncl (requestDir "r"))
        [(requestDir "r" ++ ["a"], [1])]) (requestDir "r") ⟨"a", [2], none⟩ =
      ((FS.mk (ancestorsIncl (requestDir "r"))
          [(requestDir "r" ++ ["a"], [1])]).write
        (destOf (requestDir "r") ⟨"a", [2], none⟩) [2], true, none) ∧
    lookupFile ((FS.mk (ancestorsIncl (requestDir "r"))
          [(requestDir "r" ++ ["a"], [1])]).write
        (destOf (requestDir "r") ⟨"a", [2], none⟩) [2]).files
      (destOf (requestDir "r") ⟨"a", [2], none⟩) = some [2] :=
  claim_C4_amended_truncating_open
    (FS.mk (ancestorsIncl (requestDir "r")) [(requestDir "r" ++ ["a"], [1])])
    (requestDir "r") ⟨"a", [2], none⟩ [1] (by decide) (by decide) (by decide)
    (by decide)

/-- C6: the source stream of every upload whose copy is attempted is
closed after the attempt — the closed flag of each attempted upload is
`true`, whether its copy succeeded or raised (the attempted count
includes the failing upload, and the `finally` block runs in both
cases). -/
theorem claim_C6_stream_closed {R : Type}
    (checker : FS → List FPath → String → Except String R)
    (requestId : String) (files : List UploadFile) (fs0 fs1 : FS) (i : Nat)
    (hmk : fs0.makedirs (requestDir requestId) = .ok fs1)
    (hi : i < attempted (requestDir requestId) fs1 files) :
    (check_file_list checker requestId files fs0).closed.getD i false =
      true := by
  rw [check_makedirs_ok checker files hmk, afterLoop_closed,
    runLoop_closed_shape]
  exact getD_replicate_append i hi

/-- C6, witness: a single upload whose stream raises after yielding its
bytes; the copy is attempted, fails, and the stream is closed anyway. -/
theorem claim_C6_witness :
    (check_file_list (fun _ ps _ => Except.ok ps.length) "w6"
        [⟨"a", [1], some "boom"⟩] (⟨[], []⟩ : FS)).closed.getD 0 false =
      true :=
  claim_C6_stream_closed (fun _ ps _ => Except.ok ps.length) "w6"
    [⟨"a", [1], some "boom"⟩] ⟨[], []⟩
    ⟨[["home"], ["home", "app"], ["home", "app", "input"],
      ["home", "app", "input", "w6"]], []⟩ 0 (by decide) (by decide)

/-- C7, amended: for two requests with distinct identifiers whose
uploaded files all carry PLAIN names (no `/`-separators and neither `.`
nor `..` — the unamended claim fails for traversal names such as
`"../<other-id>/evil"`), every path the first request writes lies
directly inside its own request directory and never appears in any
enumeration `glob("*")` of the second request's directory. -/
theorem claim_C7_amended_isolation {R : Type}
    (checker : FS → List FPath → String → Except String R)
    (id1 id2 : String) (files : List UploadFile) (fs0 : FS) (p : FPath)
    (hid1 : isPlainName id1 = true)
    (hplain : ∀ f ∈ files, isPlainName f.filename = true)
    (hne : id1 ≠ id2)
    (hp : p ∈ (check_file_list checker id1 files fs0).written) :
    parentDir p = requestDir id1 ∧
    ∀ fs' : FS, p ∉ fs'.glob (requestDir id2) := by
  have hpar : parentDir p = requestDir id1 := by
    cases hmk : fs0.makedirs (requestDir id1) with
    | error e =>
      rw [check_makedirs_error checker files hmk] at hp
      cases hp
    | ok fs1 =>
      rw [check_makedirs_ok checker files hmk, afterLoop_written] at hp
      refine runLoop_written_parent (requestDir id1) files fs1 p ?_ hp
      intro f hf
      exact destOf_plain hid1 (hplain f hf) f.bytes f.readError
  refine ⟨hpar, fun fs' hmem => ?_⟩
  have h2 : parentDir p = requestDir id2 := (mem_glob.mp hmem).2
  exact hne (requestDir_inj (hpar.symm.trans h2))

/-- C7, witness: request `"a"` uploads one plainly named file; the written
path sits in `"a"`'s directory and in no enumeration of `"b"`'s. -/
theorem claim_C7_witness :
    parentDir (requestDir "a" ++ ["f"]) = requestDir "a" ∧
    ∀ fs' : FS, (requestDir "a" ++ ["f"]) ∉ fs'.glob (requestDir "b") :=
  claim_C7_amended_isolation (fun _ ps _ => Except.ok ps.length) "a" "b"
    [⟨"f", [1], none⟩] ⟨[], []⟩ (requestDir "a" ++ ["f"]) (by decide)
    (by decide) (by decide) (by decide)

/-- C8: for two successful runs of the same request on permuted upload
lists with pairwise-distinct names, the validator is passed the same set
of file paths — the enumerations of the request directory agree up to
membership, independent of client upload order. -/
theorem claim_C8_order_independent_enumeration {R : Type}
    (checker : FS → List FPath → String → Except String R)
    (requestId : String) (files1 files2 : List UploadFile) (fs0 : FS)
    (r1 r2 : Response R)
    (hperm : files1.Perm files2)
    (_hnodup : (files1.map (fun f => f.filename)).Nodup)
    (h1 : (check_file_list checker requestId files1 fs0).outcome = .ok r1)
    (h2 : (check_file_list checker requestId files2 fs0).outcome = .ok r2) :
    (check_file_list checker requestId files1 fs0).calls =
      [((check_file_list checker requestId files1 fs0).fs.glob
          (requestDir requestId), "bodc")] ∧
    (check_file_list checker requestId files2 fs0).calls =
      [((check_file_list checker requestId files2 fs0).fs.glob
          (requestDir requestId), "bodc")] ∧
    ∀ p, p ∈ (check_file_list checker requestId files1 fs0).fs.glob
          (requestDir requestId) ↔
        p ∈ (check_file_list checker requestId files2 fs0).fs.glob
          (requestDir requestId) := by
  obtain ⟨fs1, hmk1, herr1, hfs1, _, _, hcalls1, _⟩ := check_ok_cases h1
  obtain ⟨fs1', hmk2, herr2, hfs2, _, _, hcalls2, _⟩ := check_ok_cases h2
  have heq : fs1' = fs1 := by
    rw [hmk1] at hmk2
    injection hmk2 with h
    exact h.symm
  rw [heq] at herr2 hfs2 hcalls2
  refine ⟨by rw [hfs1]; exact hcalls1, by rw [hfs2]; exact hcalls2, ?_⟩
  intro p
  rw [hfs1, hfs2, mem_glob, mem_glob,
    (runLoop_none_spec _ files1 fs1 herr1).2 p,
    (runLoop_none_spec _ files2 fs1 herr2).2 p,
    runLoop_dirs, runLoop_dirs]
  have hdests : p ∈ files1.map (fun f => destOf (requestDir requestId) f) ↔
      p ∈ files2.map (fun f => destOf (requestDir requestId) f) :=
    (hperm.map (fun f => destOf (requestDir requestId) f)).mem_iff
  tauto

/-- C8, witness: the two-element upload list `a, b` against its reversal,
both runs successful, instantiating the theorem. -/
theorem claim_C8_witness :
    (check_file_list (fun _ ps _ => Except.ok ps.length) "w8"
        [⟨"a", [1], none⟩, ⟨"b", [2], none⟩] (⟨[], []⟩ : FS)).calls =
      [((check_file_list (fun _ ps _ => Except.ok ps.length) "w8"
          [⟨"a", [1], none⟩, ⟨"b", [2], none⟩] (⟨[], []⟩ : FS)).fs.glob
          (requestDir "w8"), "bodc")] ∧
    (check_file_list (fun _ ps _ => Except.ok ps.length) "w8"
        [⟨"b", [2], none⟩, ⟨"a", [1], none⟩] (⟨[], []⟩ : FS)).calls =
      [((check_file_list (fun _ ps _ => Except.ok ps.length) "w8"
          [⟨"b", [2], none⟩, ⟨"a", [1], none⟩] (⟨[], []⟩ : FS)).fs.glob
          (requestDir "w8"), "bodc")] ∧
    ∀ p, p ∈ (check_file_list (fun _ ps _ => Except.ok ps.length) "w8"
          [⟨"a", [1], none⟩, ⟨"b", [2], none⟩] (⟨[], []⟩ : FS)).fs.glob
          (requestDir "w8") ↔
        p ∈ (check_file_list (fun _ ps _ => Except.ok ps.length) "w8"
          [⟨"b", [2], none⟩, ⟨"a", [1], none⟩] (⟨[], []⟩ : FS)).fs.glob
          (requestDir "w8") :=
  claim_C8_order_independent_enumeration
    (fun _ ps _ => Except.ok ps.length) "w8"
    [⟨"a", [1], none⟩, ⟨"b", [2], none⟩] [⟨"b", [2], none⟩, ⟨"a", [1], none⟩]
    ⟨[], []⟩ ⟨2⟩ ⟨2⟩ (by decide) (by decide) (by decide) (by decide)

/-- C10: when two uploads of one request carry the same plain
client-supplied name, no error is raised for the collision — the later
copy opens the same destination path in truncating write mode, so after
the loop the request directory contains a single file of that name whose
bytes equal the later upload's stream (last writer wins). -/
theorem claim_C10_last_writer_wins {R : Type}
    (checker : FS → List FPath → String → Except String R)
    (requestId n : String) (b1 b2 : Bytes) (fs0 fs1 : FS)
    (hwf : fs0.wf) (hid : isPlainName requestId = true)
    (hn : isPlainName n = true)
    (hmk : fs0.makedirs (requestDir requestId) = .ok fs1) :
    (runLoop (requestDir requestId) fs1
      [⟨n, b1, none⟩, ⟨n, b2, none⟩]).err = none ∧
    (check_file_list checker requestId [⟨n, b1, none⟩, ⟨n, b2, none⟩]
        fs0).fs.fileKeys.filter
        (fun p => parentDir p = requestDir requestId) =
      [requestDir requestId ++ [n]] ∧
    lookupFile (check_file_list checker requestId
        [⟨n, b1, none⟩, ⟨n, b2, none⟩] fs0).fs.files
      (requestDir requestId ++ [n]) = some b2 := by
  have hrdne : requestDir requestId ≠ [] := by simp [requestDir, inputRoot]
  have hrd1 : requestDir requestId ∈ fs1.dirs := makedirs_mem_dirs hmk hrdne
  have hnd : ∀ d ∈ fs1.dirs, parentDir d ≠ requestDir requestId :=
    makedirs_no_dir_under hwf hmk hrdne
  have hnf : ∀ q ∈ fs1.fileKeys, parentDir q ≠ requestDir requestId :=
    makedirs_no_file_under hwf hmk hrdne
  have hd1 : destOf (requestDir requestId) ⟨n, b1, none⟩ =
      requestDir requestId ++ [n] := destOf_plain hid hn b1 none
  have hd2 : destOf (requestDir requestId) ⟨n, b2, none⟩ =
      requestDir requestId ++ [n] := destOf_plain hid hn b2 none
  have hkey : (requestDir requestId ++ [n]) ∉ fs1.fileKeys :=
    fun hmem => hnf _ hmem (parentDir_concat _ _)
  have hcopy1 : copyUpload fs1 (requestDir requestId) ⟨n, b1, none⟩ =
      (fs1.write (requestDir requestId ++ [n]) b1, true, none) := by
    rw [copyUpload, hd1, if_pos (canOpenWb_concat n hrd1 hnd)]
  have hdirsA : (fs1.write (requestDir requestId ++ [n]) b1).dirs =
      fs1.dirs := rfl
  have hcopy2 : copyUpload (fs1.write (requestDir requestId ++ [n]) b1)
      (requestDir requestId) ⟨n, b2, none⟩ =
      ((fs1.write (requestDir requestId ++ [n]) b1).write
        (requestDir requestId ++ [n]) b2, true, none) := by
    rw [copyUpload, hd2]
    rw [if_pos]
    exact canOpenWb_concat n (hdirsA ▸ hrd1) (hdirsA ▸ hnd)
  have hloop : runLoop (requestDir requestId) fs1
      [⟨n, b1, none⟩, ⟨n, b2, none⟩] =
      ⟨(fs1.write (requestDir requestId ++ [n]) b1).write
        (requestDir requestId ++ [n]) b2, [true, true],
        [requestDir requestId ++ [n], requestDir requestId ++ [n]],
        none⟩ := by
    simp [runLoop, hcopy1, hcopy2, hd1, hd2]
  have hfsfinal : ((fs1.write (requestDir requestId ++ [n]) b1).write
      (requestDir requestId ++ [n]) b2).files =
      fs1.files ++ [(requestDir requestId ++ [n], b2)] := by
    show setFile (setFile fs1.files (requestDir requestId ++ [n]) b1)
      (requestDir requestId ++ [n]) b2 = _
    rw [setFile_setFile, setFile_of_not_mem fs1.files _ b2 hkey]
  have hout : (check_file_list checker requestId
      [⟨n, b1, none⟩, ⟨n, b2, none⟩] fs0).fs.files =
      fs1.files ++ [(requestDir requestId ++ [n], b2)] := by
    rw [check_makedirs_ok checker _ hmk, afterLoop_fs, hloop, hfsfinal]
  refine ⟨by rw [hloop], ?_, ?_⟩
  · have hkf : (check_file_list checker requestId
        [⟨n, b1, none⟩, ⟨n, b2, none⟩] fs0).fs.fileKeys =
        fs1.fileKeys ++ [requestDir requestId ++ [n]] := by
      rw [FS.fileKeys, hout, List.map_append]
      rfl
    rw [hkf, List.filter_append, filter_parent_nil hnf, List.nil_append]
    simp [parentDir_concat]
  · have hnone : lookupFile fs1.files (requestDir requestId ++ [n]) = none :=
      lookupFile_eq_none fs1.files _ hkey
    rw [hout, lookupFile_append_of_left_none fs1.files _ _ hnone]
    simp [lookupFile]

/-- C10, witness: two uploads named `"a"` with bytes `[1]` then `[2]`; the
run raises nothing and leaves the single file `a` holding `[2]`. -/
theorem claim_C10_witness :
    (runLoop (requestDir "w10")
      (FS.mk [["home"], ["home", "app"], ["home", "app", "input"],
        ["home", "app", "input", "w10"]] [])
      [⟨"a", [1], none⟩, ⟨"a", [2], none⟩]).err = none ∧
    (check_file_list (fun _ ps _ => Except.ok ps.length) "w10"
        [⟨"a", [1], none⟩, ⟨"a", [2], none⟩]
        (⟨[], []⟩ : FS)).fs.fileKeys.filter
        (fun p => parentDir p = requestDir "w10") =
      [requestDir "w10" ++ ["a"]] ∧
    lookupFile (check_file_list (fun _ ps _ => Except.ok ps.length) "w10"
        [⟨"a", [1], none⟩, ⟨"a", [2], none⟩] (⟨[], []⟩ : FS)).fs.files
      (requestDir "w10" ++ ["a"]) = some [2] :=
  claim_C10_last_writer_wins (fun _ ps _ => Except.ok ps.length) "w10" "a"
    [1] [2] ⟨[], []⟩
    (FS.mk [["home"], ["home", "app"], ["home", "app", "input"],
      ["home", "app", "input", "w10"]] [])
    (by constructor <;> simp [FS.wf]) (by decide) (by decide) (by decide)
